import Mathlib

/-!
Shallow embedding of `ingester/src/data/namespace.rs`: the per-namespace
ingestion buffer (`NamespaceData`), its dual-keyed table index (`DoubleRef`),
the scoped in-flight sequence-number marker (`ScopedSequenceNumber`), and
the operation/outcome types it consumes and produces.

External collaborators that are not part of the sources (the per-table
buffering capability `TableData::buffer_table_write`, the per-table progress
value, and the `write_summary::ShardProgress` aggregate) are modelled from
the spec, as documented on each such definition.
-/

namespace InfluxIngester

/-- Errors (`ingester::data::Error`) are opaque tokens here: this module never
inspects them, it only propagates them verbatim. -/
abbrev IngestError := Nat

/-- Association-list lookup: first entry whose key matches (`HashMap::get`). -/
def findKV {κ α : Type} [DecidableEq κ] (k : κ) : List (κ × α) → Option α
  | [] => none
  | (k₀, v₀) :: rest => if k₀ = k then some v₀ else findKV k rest

/-- Association-list insert with `HashMap::insert` semantics: replace the
value in place when the key is present, otherwise append the new entry. -/
def insertKV {κ α : Type} [DecidableEq κ] (k : κ) (v : α) : List (κ × α) → List (κ × α)
  | [] => [(k, v)]
  | (k₀, v₀) :: rest => if k₀ = k then (k₀, v) :: rest else (k₀, v₀) :: insertKV k v rest

/-- `DmlApplyAction` from `ingester::data`: outcome of applying an operation
(or one per-table item): applied (with a should-pause flag) or skipped. -/
inductive DmlApplyAction : Type
  | Applied (should_pause : Bool)
  | Skipped
deriving DecidableEq, Repr

/-- Per-table buffer (`TableData` from `ingester::data::table`, external to the
sources). Mirrors the seeding made by `TableData::new(table_id, table_name,
shard_id, namespace_id, partition_provider)` at `namespace.rs:272`.
The `ref` field models the `Arc` allocation identity: two handles denote the
identical shared instance exactly when their `ref`s agree. `buf` is modelled
from the spec: the rows the external buffering capability has applied, as
`(sequence_number, row_batch, partition_key)` records. -/
structure TableData : Type where
  ref : Nat
  table_id : Int
  table_name : String
  shard_id : Int
  namespace_id : Int
  partition_provider : Nat
  buf : List (Int × Nat × String)
deriving DecidableEq, Repr

/-- The double-referenced map of `namespace.rs:22`: `TableData` handles keyed
both by name and by id. Values are the shared handles (see `TableData.ref`). -/
structure DoubleRef : Type where
  by_name : List (String × TableData)
  by_id : List (Int × TableData)
deriving DecidableEq, Repr

/-- `DoubleRef::insert` (`namespace.rs:29`): store the handle under both its
name and its id, returning the shared handle. -/
def DoubleRef.insert (d : DoubleRef) (t : TableData) : TableData × DoubleRef :=
  (t, ⟨insertKV t.table_name t d.by_name, insertKV t.table_id t d.by_id⟩)

/-- `DoubleRef::by_name` (`namespace.rs:39`). -/
def DoubleRef.lookup_by_name (d : DoubleRef) (name : String) : Option TableData :=
  findKV name d.by_name

/-- `DoubleRef::by_id` (`namespace.rs:43`). -/
def DoubleRef.lookup_by_id (d : DoubleRef) (id : Int) : Option TableData :=
  findKV id d.by_id

/-- A write operation (`DmlWrite`): optional sequence metadata, the
router-derived partition key, and the ordered `(table_name, table_id,
row_batch)` items yielded by `into_tables()`. Row batches are opaque tokens. -/
structure DmlWrite : Type where
  sequence : Option Int
  partition_key : String
  tables : List (String × Int × Nat)
deriving DecidableEq, Repr

/-- A delete operation (`DmlDelete`): optional sequence metadata and the
targeted table name. -/
structure DmlDelete : Type where
  sequence : Option Int
  table_name : String
deriving DecidableEq, Repr

/-- `DmlOperation`: either a write or a (deprecated) delete. -/
inductive DmlOperation : Type
  | Write (w : DmlWrite)
  | Delete (d : DmlDelete)
deriving DecidableEq, Repr

/-- `dml_operation.meta().sequence()`, as the sequence number it carries. -/
def DmlOperation.sequence : DmlOperation → Option Int
  | .Write w => w.sequence
  | .Delete d => d.sequence

/-- One `warn!` diagnostic record, as emitted for discarded deletes at
`namespace.rs:233`. -/
structure Diag : Type where
  shard_id : Int
  namespace_name : String
  namespace_id : Int
  table_name : String
  sequence : Option Int
  msg : String
deriving DecidableEq, Repr

/-- The per-namespace buffer state (`NamespaceData`, `namespace.rs:79`).
`table_count` is the value of the monotonically increasing `ingester_tables`
counter. `next_ref` models the allocator: the `Arc` identity the next
`TableData::new` allocation will receive. -/
structure NamespaceData : Type where
  namespace_id : Int
  namespace_name : String
  shard_id : Int
  partition_provider : Nat
  tables : DoubleRef
  table_count : Nat
  next_ref : Nat
  buffering_sequence_number : Option Int
deriving DecidableEq, Repr

/-- `NamespaceData::new` (`namespace.rs:143`): empty index, zeroed counter,
no in-flight sequence number. -/
def NamespaceData.new (namespace_id : Int) (namespace_name : String) (shard_id : Int)
    (partition_provider : Nat) : NamespaceData :=
  ⟨namespace_id, namespace_name, shard_id, partition_provider, ⟨[], []⟩, 0, 0, none⟩

/-- `NamespaceData::table_data` (`namespace.rs:248`): lookup by name. -/
def NamespaceData.table_data (st : NamespaceData) (name : String) : Option TableData :=
  st.tables.lookup_by_name name

/-- `NamespaceData::table_id` (`namespace.rs:254`): lookup by id. -/
def NamespaceData.table_id (st : NamespaceData) (id : Int) : Option TableData :=
  st.tables.lookup_by_id id

/-- `NamespaceData::insert_table` (`namespace.rs:260`): under the write lock,
re-check by name (double-checked pattern); on a hit return the existing
handle, otherwise bump the table counter and insert a freshly constructed
`TableData`. -/
def NamespaceData.insert_table (st : NamespaceData) (table_name : String) (table_id : Int) :
    TableData × NamespaceData :=
  match st.tables.lookup_by_name table_name with
  | some v => (v, st)
  | none =>
    let t : TableData :=
      ⟨st.next_ref, table_id, table_name, st.shard_id, st.namespace_id,
        st.partition_provider, []⟩
    let inserted := st.tables.insert t
    (inserted.1,
      { st with
          tables := inserted.2
          table_count := st.table_count + 1
          next_ref := st.next_ref + 1 })

/-- The get-or-create step of the write loop (`namespace.rs:201`): resolve a
table by name, falling back to `insert_table` on a miss. -/
def NamespaceData.getOrCreate (st : NamespaceData) (table_name : String) (table_id : Int) :
    TableData × NamespaceData :=
  match st.table_data table_name with
  | some t => (t, st)
  | none => st.insert_table table_name table_id

/-- Write through a shared `Arc` handle: every index entry holding the same
allocation (equal `ref`) observes the update, exactly as interior mutation
through `Arc<TableData>` does. -/
def NamespaceData.updateTable (st : NamespaceData) (r : Nat) (t : TableData) : NamespaceData :=
  { st with
      tables :=
        ⟨st.tables.by_name.map (fun p => (p.1, if p.2.ref = r then t else p.2)),
          st.tables.by_id.map (fun p => (p.1, if p.2.ref = r then t else p.2))⟩ }

/-- The external per-table buffering capability's decision for one call:
given the table's current state, the sequence number, the row batch and the
partition key, either fail or report the apply action. -/
abbrev Oracle := TableData → Int → Nat → String → Except IngestError DmlApplyAction

/-- Modelled from the spec: `TableData::buffer_table_write`
(`ingester::data::table`, external to the sources) — `buffer_write(sequence,
rows, partition_key, lifecycle) -> outcome or error`. The outcome is decided
by the external capability (the oracle); when it reports *applied* the rows
are buffered into the shared instance, otherwise the table is untouched. -/
def bufferTableWrite (o : Oracle) (st : NamespaceData) (t : TableData) (seq : Int) (b : Nat)
    (pk : String) : Except IngestError (NamespaceData × DmlApplyAction) :=
  match o t seq b pk with
  | .error e => .error e
  | .ok (.Applied p) =>
      .ok (st.updateTable t.ref { t with buf := t.buf ++ [(seq, b, pk)] }, .Applied p)
  | .ok .Skipped => .ok (st, .Skipped)

/-- Result of an operation that can also `panic!`/`assert!` out. -/
inductive PanicOr (α : Type) : Type
  | panic (msg : String)
  | ok (a : α)
deriving DecidableEq, Repr

/-- `ScopedSequenceNumber::new` (`namespace.rs:323`): set the in-flight
marker to the call's sequence number. -/
def scopedNew (seq : Int) (_m : Option Int) : Option Int :=
  some seq

/-- `ScopedSequenceNumber::drop` (`namespace.rs:337`): assert the marker
still equals the sequence number set at entry, then clear it to `None`. -/
def scopedDrop (seq : Int) (m : Option Int) : PanicOr (Option Int) :=
  if m = some seq then .ok none
  else .panic "multiple operations are being buffered concurrently"

/-- How one call to `buffer_operation` ends: a panic (failed `expect` or
assertion), a propagated error, or a returned `DmlApplyAction`. -/
inductive BufferOutcome : Type
  | panicked (msg : String)
  | failed (e : IngestError)
  | applied (a : DmlApplyAction)
deriving DecidableEq, Repr

/-- The per-table loop of the write branch (`namespace.rs:199`): resolve each
item's table by name (get-or-create), delegate the write, fold the
`pause_writes` / `all_skipped` accumulators, and stop at the first error. -/
def processTables (o : Oracle) (seq : Int) (pk : String) :
    NamespaceData → Bool → Bool → List (String × Int × Nat) →
    NamespaceData × Except IngestError (Bool × Bool)
  | st, pause_writes, all_skipped, [] => (st, .ok (pause_writes, all_skipped))
  | st, pause_writes, all_skipped, (table_name, table_id, b) :: rest =>
    let resolved := st.getOrCreate table_name table_id
    match bufferTableWrite o resolved.2 resolved.1 seq b pk with
    | .error e => (resolved.2, .error e)
    | .ok (st₂, action) =>
      match action with
      | .Applied should_pause =>
          processTables o seq pk st₂ (pause_writes || should_pause) false rest
      | .Skipped => processTables o seq pk st₂ pause_writes all_skipped rest

/-- Run the drop of the scoped sequence-number guard on the way out of
`buffer_operation`, on every path that created the guard. -/
def finishScoped (seq : Int) (st : NamespaceData) (out : BufferOutcome) (log : List Diag) :
    BufferOutcome × NamespaceData × List Diag :=
  match scopedDrop seq st.buffering_sequence_number with
  | .panic msg => (.panicked msg, st, log)
  | .ok m => (out, { st with buffering_sequence_number := m }, log)

/-- `NamespaceData::buffer_operation` (`namespace.rs:173`): extract the
sequence number (panicking when absent), set the in-flight marker, branch on
the operation kind — the per-table write loop with outcome aggregation, or
the discarded-delete diagnostic — and release the marker on every exit path.
Returns the outcome, the final namespace state, and the emitted diagnostics. -/
def NamespaceData.buffer_operation (st : NamespaceData) (o : Oracle) (op : DmlOperation) :
    BufferOutcome × NamespaceData × List Diag :=
  match op.sequence with
  | none => (.panicked "must have sequence number", st, [])
  | some sequence_number =>
    let marker := scopedNew sequence_number st.buffering_sequence_number
    let st₁ := { st with buffering_sequence_number := marker }
    match op with
    | .Write w =>
      let partition_key := w.partition_key
      let looped := processTables o sequence_number partition_key st₁ false true w.tables
      match looped.2 with
      | .error e => finishScoped sequence_number looped.1 (.failed e) []
      | .ok (pause_writes, all_skipped) =>
        if all_skipped then
          finishScoped sequence_number looped.1 (.applied .Skipped) []
        else
          finishScoped sequence_number looped.1 (.applied (.Applied pause_writes)) []
    | .Delete d =>
      finishScoped sequence_number st₁ (.applied (.Applied false))
        [⟨st₁.shard_id, st₁.namespace_name, st₁.namespace_id, d.table_name, d.sequence,
          "discarding unsupported delete op"⟩]

/-- Modelled from the spec: the aggregate progress value
(`write_summary::ShardProgress`, external to the sources). Per the spec it
supports "mark sequence S as actively buffering" and an associative,
side-effect-free merge; `actively` records the overlaid actively-buffering
sequence numbers and `parts` the per-table progress values merged in. -/
structure ShardProgress : Type where
  actively : List Int
  parts : List TableData
deriving DecidableEq, Repr

/-- `ShardProgress::new`: the empty progress value. -/
def ShardProgress.new : ShardProgress :=
  ⟨[], []⟩

/-- Modelled from the spec: `ShardProgress::actively_buffering` — overlay an
optional actively-buffering sequence number onto the progress value. -/
def ShardProgress.actively_buffering (p : ShardProgress) : Option Int → ShardProgress
  | some s => ⟨p.actively ++ [s], p.parts⟩
  | none => p

/-- Modelled from the spec: `ShardProgress::combine` — the associative merge
of two progress values. -/
def ShardProgress.combine (p q : ShardProgress) : ShardProgress :=
  ⟨p.actively ++ q.actively, p.parts ++ q.parts⟩

/-- Modelled from the spec: `TableData::progress` — the table's own progress
value, opaque to this module, here the snapshot of the table itself. -/
def TableData.progress (t : TableData) : ShardProgress :=
  ⟨[], [t]⟩

/-- `NamespaceData::progress` (`namespace.rs:284`): snapshot the `by_id`
values, start from `ShardProgress::new().actively_buffering(marker)`, and
fold each table's progress in with `combine`. -/
def NamespaceData.progress (st : NamespaceData) : ShardProgress :=
  let tables := st.tables.by_id.map (fun p => p.2)
  tables.foldl (fun p t => p.combine t.progress)
    (ShardProgress.new.actively_buffering st.buffering_sequence_number)

/-- The spec's reading of `progress` (§4.3): fold all per-table progress
values together with the associative merge, then overlay the in-flight
marker, if set, onto the result. Stated for comparison with
`NamespaceData.progress`, which is translated from the code. -/
def progressSpec (st : NamespaceData) : ShardProgress :=
  (((st.tables.by_id.map (fun p => p.2)).map TableData.progress).foldl
      ShardProgress.combine ShardProgress.new).actively_buffering
    st.buffering_sequence_number

/-- Derived per-item trace of the write loop: the `DmlApplyAction` each item
in the list produces when the loop is run from `st`, or `none` when some
item's delegation fails. Used to state aggregation claims about
`processTables`. -/
def writeActionTrace (o : Oracle) (seq : Int) (pk : String) :
    NamespaceData → List (String × Int × Nat) → Option (List DmlApplyAction)
  | _, [] => some []
  | st, (table_name, table_id, b) :: rest =>
    let resolved := st.getOrCreate table_name table_id
    match bufferTableWrite o resolved.2 resolved.1 seq b pk with
    | .error _ => none
    | .ok (st₂, action) => (writeActionTrace o seq pk st₂ rest).map (fun l => action :: l)

/-- Whether an action is `Applied(true)`, i.e. requests a pause. -/
def requestsPause : DmlApplyAction → Bool
  | .Applied p => p
  | .Skipped => false

/-- Whether an action is `Skipped`. -/
def isSkip : DmlApplyAction → Bool
  | .Applied _ => false
  | .Skipped => true

/-- The names currently keying the `by_name` view. -/
def keysN (st : NamespaceData) : List String :=
  st.tables.by_name.map Prod.fst

/-- The ids currently keying the `by_id` view. -/
def keysI (st : NamespaceData) : List Int :=
  st.tables.by_id.map Prod.fst

/-- Every handle reachable from either keyed view. -/
def valsAll (st : NamespaceData) : List TableData :=
  st.tables.by_name.map Prod.snd ++ st.tables.by_id.map Prod.snd

/-- The `TableData` that `insert_table` constructs for a fresh name. -/
def freshTable (st : NamespaceData) (n : String) (i : Int) : TableData :=
  ⟨st.next_ref, i, n, st.shard_id, st.namespace_id, st.partition_provider, []⟩

/-- The state `insert_table` produces for a fresh name whose id is fresh
too: both views extended by the new entry, counter and allocator bumped. -/
def insertedState (st : NamespaceData) (n : String) (i : Int) : NamespaceData :=
  { st with
      tables := ⟨st.tables.by_name ++ [(n, freshTable st n i)],
        st.tables.by_id ++ [(i, freshTable st n i)]⟩,
      table_count := st.table_count + 1,
      next_ref := st.next_ref + 1 }

/-- Two `ScopedSequenceNumber` guards overlapping in time on the same
marker cell: guard 1 is created, guard 2 is created, then guard 1 is
dropped and, if that did not already panic, guard 2 is dropped. Returns
the message of the first assertion failure, if any. -/
def overlapRun (s₁ s₂ : Int) : Option String :=
  let m₀ : Option Int := none
  let m₁ := scopedNew s₁ m₀
  let m₂ := scopedNew s₂ m₁
  match scopedDrop s₁ m₂ with
  | .panic msg => some msg
  | .ok m₃ =>
    match scopedDrop s₂ m₃ with
    | .panic msg => some msg
    | .ok _ => none

/-- Whether a `buffer_operation` outcome is the overlapping-guards
assertion failure of `ScopedSequenceNumber::drop`. -/
def isOverlapPanic : BufferOutcome → Bool
  | .panicked msg => msg == "multiple operations are being buffered concurrently"
  | _ => false

/-- A sequence of get-or-create calls for the one table name, with the
supplied table id varying per call; returns every call's handle and the
final state. -/
def getOrCreateMany : NamespaceData → String → List Int → List TableData × NamespaceData
  | st, _, [] => ([], st)
  | st, n, i :: rest =>
    let r := st.getOrCreate n i
    let more := getOrCreateMany r.2 n rest
    (r.1 :: more.1, more.2)

/-- Side condition under which one write's items never create two tables
sharing a table id: walking the items in order, an item whose name is not
yet indexed must carry an id that is not yet indexed either (the catalog's
uniqueness of table ids). Key lists evolve exactly as the index's keys do. -/
def OkWrite : List String → List Int → List (String × Int × Nat) → Bool
  | _, _, [] => true
  | byN, byI, (n, i, _) :: rest =>
    if n ∈ byN then OkWrite byN byI rest
    else decide (i ∉ byI) && OkWrite (byN ++ [n]) (byI ++ [i]) rest

/-- The id-uniqueness side condition lifted to a whole operation. -/
def OkOpB (st : NamespaceData) : DmlOperation → Bool
  | .Write w => OkWrite (keysN st) (keysI st) w.tables
  | .Delete _ => true

/-- Well-formedness of the dual-keyed table index: distinct keys in each
view; every `by_name` entry is keyed by its table's name, resolves through
`by_id` to the identical shared instance, and holds an already-allocated
`ref`; symmetrically for `by_id` entries; and `ref`s identify instances. -/
structure WF (st : NamespaceData) : Prop where
  nodupN : (keysN st).Nodup
  nodupI : (keysI st).Nodup
  nameOk : ∀ p ∈ st.tables.by_name,
    p.2.table_name = p.1 ∧ findKV p.2.table_id st.tables.by_id = some p.2 ∧
      p.2.ref < st.next_ref
  idOk : ∀ p ∈ st.tables.by_id,
    p.2.table_id = p.1 ∧ findKV p.2.table_name st.tables.by_name = some p.2 ∧
      p.2.ref < st.next_ref
  refInj : ∀ t₁ ∈ valsAll st, ∀ t₂ ∈ valsAll st, t₁.ref = t₂.ref → t₁ = t₂

/-! Concrete instances used by the claim witnesses and counterexamples. -/

/-- An oracle that applies every per-table write without requesting a pause. -/
def oracleAllOk : Oracle := fun _ _ _ _ => .ok (.Applied false)

/-- An oracle that applies table `a`'s writes requesting a pause and skips
every other table. -/
def oraclePauseA : Oracle := fun t _ _ _ =>
  if t.table_name = "a" then .ok (.Applied true) else .ok .Skipped

/-- An oracle that fails table `b`'s writes with error token `7` and applies
every other table's without requesting a pause. -/
def oracleFailB : Oracle := fun t _ _ _ =>
  if t.table_name = "b" then .error 7 else .ok (.Applied false)

/-- A fresh namespace, as in the repository's unit test. -/
def nsEx : NamespaceData := NamespaceData.new 42 "platanos" 22 0

/-- A single-table write at sequence 5. -/
def wEx : DmlWrite := ⟨some 5, "pk", [("temp_readings", 44, 7)]⟩

/-- A two-table write at sequence 5 used with `oraclePauseA`/`oracleFailB`. -/
def wPair : DmlWrite := ⟨some 5, "pk", [("a", 1, 0), ("b", 2, 0)]⟩

/-- A write whose two items name different tables but carry the same id. -/
def wDup : DmlWrite := ⟨some 0, "pk", [("a", 5, 0), ("b", 5, 0)]⟩

/-- The state after buffering `wDup` into a fresh namespace. -/
def stDup : NamespaceData := (nsEx.buffer_operation oracleAllOk (.Write wDup)).2.1

/-- The instance created for `wDup`'s first item. -/
def tblA : TableData := ⟨0, 5, "a", 22, 42, 0, [(0, 0, "pk")]⟩

/-- The instance created for `wDup`'s second item. -/
def tblB : TableData := ⟨1, 5, "b", 22, 42, 0, [(0, 0, "pk")]⟩

/-- The state after buffering `wEx` into a fresh namespace. -/
def stEx : NamespaceData := (nsEx.buffer_operation oracleAllOk (.Write wEx)).2.1

/-- `stEx` with sequence 3 marked as in flight. -/
def stMark : NamespaceData := { stEx with buffering_sequence_number := some 3 }

/-- A delete at sequence 9. -/
def delEx : DmlDelete := ⟨some 9, "t"⟩

/-- A delete with no sequence metadata. -/
def delNoSeq : DmlDelete := ⟨none, "t"⟩

/-- `nsEx` at entry to an apply call for sequence 5. -/
def stEntry5 : NamespaceData := { nsEx with buffering_sequence_number := some 5 }

/-- The instance `stEx` holds for table `temp_readings`. -/
def tblEx : TableData := ⟨0, 44, "temp_readings", 22, 42, 0, [(5, 7, "pk")]⟩

/-- The state after the `wPair` loop under `oracleFailB` has processed the
first item. -/
def stAfterA : NamespaceData :=
  (processTables oracleFailB 5 "pk" stEntry5 false true [("a", 1, 0)]).1

section KVLemmas

variable {κ α : Type} [DecidableEq κ]

theorem findKV_eq_none {k : κ} {l : List (κ × α)} :
    findKV k l = none ↔ k ∉ l.map Prod.fst := by
  induction l with
  | nil => simp [findKV]
  | cons p rest ih =>
    obtain ⟨k₀, v₀⟩ := p
    by_cases h : k₀ = k
    · subst h
      simp [findKV]
    · simp only [findKV, if_neg h, List.map_cons, List.mem_cons, ih]
      constructor
      · intro hn hor
        rcases hor with h₁ | h₂
        · exact h h₁.symm
        · exact hn h₂
      · intro hn hm
        exact hn (Or.inr hm)

theorem findKV_mem {k : κ} {l : List (κ × α)} {v : α} (h : findKV k l = some v) :
    (k, v) ∈ l := by
  induction l with
  | nil => simp [findKV] at h
  | cons p rest ih =>
    obtain ⟨k₀, v₀⟩ := p
    by_cases hk : k₀ = k
    · subst hk
      simp [findKV] at h
      simp [h]
    · simp [findKV, hk] at h
      exact List.mem_cons_of_mem _ (ih h)

theorem findKV_append_some {k : κ} {l l₂ : List (κ × α)} {v : α}
    (h : findKV k l = some v) : findKV k (l ++ l₂) = some v := by
  induction l with
  | nil => simp [findKV] at h
  | cons p rest ih =>
    obtain ⟨k₀, v₀⟩ := p
    by_cases hk : k₀ = k
    · subst hk
      simp [findKV] at h ⊢
      exact h
    · simp [findKV, hk] at h ⊢
      exact ih h

theorem findKV_append_none {k : κ} {l l₂ : List (κ × α)}
    (h : findKV k l = none) : findKV k (l ++ l₂) = findKV k l₂ := by
  induction l with
  | nil => simp
  | cons p rest ih =>
    obtain ⟨k₀, v₀⟩ := p
    by_cases hk : k₀ = k
    · subst hk
      simp [findKV] at h
    · simp [findKV, hk] at h ⊢
      exact ih h

theorem insertKV_fresh {k : κ} {l : List (κ × α)} {v : α}
    (h : findKV k l = none) : insertKV k v l = l ++ [(k, v)] := by
  induction l with
  | nil => simp [insertKV]
  | cons p rest ih =>
    obtain ⟨k₀, v₀⟩ := p
    by_cases hk : k₀ = k
    · subst hk
      simp [findKV] at h
    · simp [findKV, hk] at h
      simp [insertKV, hk, ih h]

theorem findKV_mapVal (g : α → α) (k : κ) (l : List (κ × α)) :
    findKV k (l.map (fun p => (p.1, g p.2))) = (findKV k l).map g := by
  induction l with
  | nil => simp [findKV]
  | cons p rest ih =>
    obtain ⟨k₀, v₀⟩ := p
    by_cases hk : k₀ = k
    · subst hk
      simp [findKV]
    · simp [findKV, hk, ih]

omit [DecidableEq κ] in
theorem keys_mapVal (g : α → α) (l : List (κ × α)) :
    (l.map (fun p => (p.1, g p.2))).map Prod.fst = l.map Prod.fst := by
  induction l with
  | nil => rfl
  | cons p rest ih => simp [ih]

theorem findKV_insertKV_self (k : κ) (v : α) (l : List (κ × α)) :
    findKV k (insertKV k v l) = some v := by
  induction l with
  | nil => simp [insertKV, findKV]
  | cons p rest ih =>
    obtain ⟨k₀, v₀⟩ := p
    by_cases hk : k₀ = k
    · subst hk
      simp [insertKV, findKV]
    · simp [insertKV, findKV, hk, ih]

end KVLemmas

theorem insert_table_marker (st : NamespaceData) (n : String) (i : Int) :
    (st.insert_table n i).2.buffering_sequence_number = st.buffering_sequence_number := by
  cases h : st.tables.lookup_by_name n <;>
    simp [NamespaceData.insert_table, h]

theorem getOrCreate_marker (st : NamespaceData) (n : String) (i : Int) :
    (st.getOrCreate n i).2.buffering_sequence_number = st.buffering_sequence_number := by
  cases h : st.table_data n with
  | none => simp [NamespaceData.getOrCreate, h, insert_table_marker]
  | some t => simp [NamespaceData.getOrCreate, h]

theorem updateTable_marker (st : NamespaceData) (r : Nat) (t : TableData) :
    (st.updateTable r t).buffering_sequence_number = st.buffering_sequence_number :=
  rfl

theorem bufferTableWrite_marker {o : Oracle} {st : NamespaceData} {t : TableData} {seq : Int}
    {b : Nat} {pk : String} {st₂ : NamespaceData} {a : DmlApplyAction}
    (h : bufferTableWrite o st t seq b pk = .ok (st₂, a)) :
    st₂.buffering_sequence_number = st.buffering_sequence_number := by
  rw [bufferTableWrite] at h
  cases ho : o t seq b pk with
  | error e =>
    rw [ho] at h
    simp at h
  | ok act =>
    rw [ho] at h
    cases act with
    | Applied p =>
      simp at h
      rw [← h.1]
      rfl
    | Skipped =>
      simp at h
      rw [← h.1]

theorem processTables_marker (o : Oracle) (seq : Int) (pk : String) :
    ∀ (l : List (String × Int × Nat)) (st : NamespaceData) (pw sk : Bool),
      (processTables o seq pk st pw sk l).1.buffering_sequence_number =
        st.buffering_sequence_number := by
  intro l
  induction l with
  | nil =>
    intro st pw sk
    rfl
  | cons item rest ih =>
    intro st pw sk
    obtain ⟨n, i, b⟩ := item
    rw [processTables]
    cases hb : bufferTableWrite o (st.getOrCreate n i).2 (st.getOrCreate n i).1 seq b pk with
    | error e =>
      simp [hb, getOrCreate_marker]
    | ok r =>
      obtain ⟨st₂, action⟩ := r
      have hm : st₂.buffering_sequence_number = st.buffering_sequence_number :=
        (bufferTableWrite_marker hb).trans (getOrCreate_marker st n i)
      cases action <;> simp [hb, ih, hm]

theorem finishScoped_ok {seq : Int} {st : NamespaceData} {out : BufferOutcome}
    {log : List Diag} (h : st.buffering_sequence_number = some seq) :
    finishScoped seq st out log = (out, { st with buffering_sequence_number := none }, log) := by
  simp [finishScoped, scopedDrop, h]

theorem buffer_operation_write_eq (o : Oracle) (st : NamespaceData) (w : DmlWrite) (seq : Int)
    (h : w.sequence = some seq) :
    st.buffer_operation o (.Write w) =
      (match processTables o seq w.partition_key
          { st with buffering_sequence_number := some seq } false true w.tables with
      | (st', .error e) => (.failed e, { st' with buffering_sequence_number := none }, [])
      | (st', .ok (pw, sk)) =>
        (.applied (if sk then DmlApplyAction.Skipped else .Applied pw),
          { st' with buffering_sequence_number := none }, [])) := by
  rw [NamespaceData.buffer_operation]
  simp only [DmlOperation.sequence, h, scopedNew]
  have hm := processTables_marker o seq w.partition_key w.tables
    { st with buffering_sequence_number := some seq } false true
  cases hp : processTables o seq w.partition_key
      { st with buffering_sequence_number := some seq } false true w.tables with
  | mk st' r =>
    rw [hp] at hm
    cases r with
    | error e =>
      simp only [hp]
      rw [finishScoped_ok hm]
    | ok pr =>
      obtain ⟨pw, sk⟩ := pr
      simp only [hp]
      cases sk <;> simp only [if_true, if_false, Bool.false_eq_true, ite_true, ite_false] <;>
        rw [finishScoped_ok hm]

theorem buffer_operation_delete_eq (o : Oracle) (st : NamespaceData) (d : DmlDelete)
    (s : Int) (h : d.sequence = some s) :
    st.buffer_operation o (.Delete d) =
      (.applied (.Applied false), { st with buffering_sequence_number := none },
        [⟨st.shard_id, st.namespace_name, st.namespace_id, d.table_name, d.sequence,
          "discarding unsupported delete op"⟩]) := by
  rw [NamespaceData.buffer_operation]
  simp only [DmlOperation.sequence, h, scopedNew]
  rw [finishScoped_ok rfl]

theorem foldl_combine (l : List TableData) (p : ShardProgress) :
    l.foldl (fun q t => q.combine t.progress) p = ⟨p.actively, p.parts ++ l⟩ := by
  induction l generalizing p with
  | nil =>
    obtain ⟨a, ps⟩ := p
    simp
  | cons t rest ih =>
    simp only [List.foldl_cons, ih]
    simp [ShardProgress.combine, TableData.progress]

theorem foldl_combine_map (l : List TableData) (p : ShardProgress) :
    (l.map TableData.progress).foldl ShardProgress.combine p = ⟨p.actively, p.parts ++ l⟩ := by
  induction l generalizing p with
  | nil =>
    obtain ⟨a, ps⟩ := p
    simp
  | cons t rest ih =>
    simp only [List.map_cons, List.foldl_cons, ih]
    simp [ShardProgress.combine, TableData.progress]

theorem progress_closed_form (st : NamespaceData) :
    st.progress =
      ⟨(ShardProgress.new.actively_buffering st.buffering_sequence_number).actively,
        st.tables.by_id.map Prod.snd⟩ := by
  rw [NamespaceData.progress]
  simp only [foldl_combine]
  cases st.buffering_sequence_number <;>
    simp [ShardProgress.new, ShardProgress.actively_buffering]

theorem processTables_cons_err {o : Oracle} {seq : Int} {pk : String} {st : NamespaceData}
    {n : String} {i : Int} {b : Nat} {e : IngestError}
    (hb : bufferTableWrite o (st.getOrCreate n i).2 (st.getOrCreate n i).1 seq b pk = .error e)
    (rest : List (String × Int × Nat)) (pw sk : Bool) :
    processTables o seq pk st pw sk ((n, i, b) :: rest) = ((st.getOrCreate n i).2, .error e) := by
  simp only [processTables, hb]

theorem processTables_cons_applied {o : Oracle} {seq : Int} {pk : String} {st : NamespaceData}
    {n : String} {i : Int} {b : Nat} {st₂ : NamespaceData} {p : Bool}
    (hb : bufferTableWrite o (st.getOrCreate n i).2 (st.getOrCreate n i).1 seq b pk =
      .ok (st₂, .Applied p))
    (rest : List (String × Int × Nat)) (pw sk : Bool) :
    processTables o seq pk st pw sk ((n, i, b) :: rest) =
      processTables o seq pk st₂ (pw || p) false rest := by
  simp only [processTables, hb]

theorem processTables_cons_skipped {o : Oracle} {seq : Int} {pk : String} {st : NamespaceData}
    {n : String} {i : Int} {b : Nat} {st₂ : NamespaceData}
    (hb : bufferTableWrite o (st.getOrCreate n i).2 (st.getOrCreate n i).1 seq b pk =
      .ok (st₂, .Skipped))
    (rest : List (String × Int × Nat)) (pw sk : Bool) :
    processTables o seq pk st pw sk ((n, i, b) :: rest) =
      processTables o seq pk st₂ pw sk rest := by
  simp only [processTables, hb]

theorem writeActionTrace_cons_err {o : Oracle} {seq : Int} {pk : String} {st : NamespaceData}
    {n : String} {i : Int} {b : Nat} {e : IngestError}
    (hb : bufferTableWrite o (st.getOrCreate n i).2 (st.getOrCreate n i).1 seq b pk = .error e)
    (rest : List (String × Int × Nat)) :
    writeActionTrace o seq pk st ((n, i, b) :: rest) = none := by
  simp only [writeActionTrace, hb]

theorem writeActionTrace_cons_ok {o : Oracle} {seq : Int} {pk : String} {st : NamespaceData}
    {n : String} {i : Int} {b : Nat} {st₂ : NamespaceData} {action : DmlApplyAction}
    (hb : bufferTableWrite o (st.getOrCreate n i).2 (st.getOrCreate n i).1 seq b pk =
      .ok (st₂, action))
    (rest : List (String × Int × Nat)) :
    writeActionTrace o seq pk st ((n, i, b) :: rest) =
      (writeActionTrace o seq pk st₂ rest).map (fun l => action :: l) := by
  simp only [writeActionTrace, hb]

theorem processTables_trace (o : Oracle) (seq : Int) (pk : String) :
    ∀ (l : List (String × Int × Nat)) (st : NamespaceData) (pw sk : Bool)
      (acts : List DmlApplyAction),
      writeActionTrace o seq pk st l = some acts →
      (processTables o seq pk st pw sk l).2 =
        .ok (pw || acts.any requestsPause, sk && acts.all isSkip) := by
  intro l
  induction l with
  | nil =>
    intro st pw sk acts h
    rw [writeActionTrace] at h
    injection h with h
    subst h
    simp [processTables]
  | cons item rest ih =>
    intro st pw sk acts h
    obtain ⟨n, i, b⟩ := item
    cases hb : bufferTableWrite o (st.getOrCreate n i).2 (st.getOrCreate n i).1 seq b pk with
    | error e =>
      rw [writeActionTrace_cons_err hb] at h
      cases h
    | ok r =>
      obtain ⟨st₂, action⟩ := r
      rw [writeActionTrace_cons_ok hb] at h
      cases htr : writeActionTrace o seq pk st₂ rest with
      | none =>
        rw [htr] at h
        cases h
      | some acts₂ =>
        rw [htr] at h
        injection h with h
        subst h
        cases action with
        | Applied p =>
          rw [processTables_cons_applied hb]
          rw [ih st₂ (pw || p) false acts₂ htr]
          simp [requestsPause, isSkip, Bool.or_assoc]
        | Skipped =>
          rw [processTables_cons_skipped hb]
          rw [ih st₂ pw sk acts₂ htr]
          simp [requestsPause, isSkip]

theorem processTables_append (o : Oracle) (seq : Int) (pk : String) :
    ∀ (l₁ l₂ : List (String × Int × Nat)) (st st₁ : NamespaceData) (pw sk pw₁ sk₁ : Bool),
      processTables o seq pk st pw sk l₁ = (st₁, .ok (pw₁, sk₁)) →
      processTables o seq pk st pw sk (l₁ ++ l₂) = processTables o seq pk st₁ pw₁ sk₁ l₂ := by
  intro l₁
  induction l₁ with
  | nil =>
    intro l₂ st st₁ pw sk pw₁ sk₁ h
    rw [processTables] at h
    injection h with h₁ h₂
    injection h₂ with h₂
    injection h₂ with h₂ h₃
    subst h₁
    subst h₂
    subst h₃
    rfl
  | cons item rest ih =>
    intro l₂ st st₁ pw sk pw₁ sk₁ h
    obtain ⟨n, i, b⟩ := item
    rw [List.cons_append]
    cases hb : bufferTableWrite o (st.getOrCreate n i).2 (st.getOrCreate n i).1 seq b pk with
    | error e =>
      rw [processTables_cons_err hb] at h
      injection h with h₁ h₂
      cases h₂
    | ok r =>
      obtain ⟨st₂, action⟩ := r
      cases action with
      | Applied p =>
        rw [processTables_cons_applied hb] at h
        rw [processTables_cons_applied hb]
        exact ih l₂ st₂ st₁ (pw || p) false pw₁ sk₁ h
      | Skipped =>
        rw [processTables_cons_skipped hb] at h
        rw [processTables_cons_skipped hb]
        exact ih l₂ st₂ st₁ pw sk pw₁ sk₁ h

theorem insert_table_fresh {st : NamespaceData} {n : String} {i : Int}
    (h : st.table_data n = none) :
    (st.insert_table n i).1 =
      ⟨st.next_ref, i, n, st.shard_id, st.namespace_id, st.partition_provider, []⟩ ∧
    (st.insert_table n i).2.table_count = st.table_count + 1 ∧
    (st.insert_table n i).2.next_ref = st.next_ref + 1 ∧
    (st.insert_table n i).2.table_data n = some (st.insert_table n i).1 ∧
    keysN (st.insert_table n i).2 = keysN st ++ [n] := by
  have hl : st.tables.lookup_by_name n = none := h
  have hfind : findKV n st.tables.by_name = none := hl
  refine ⟨?_, ?_, ?_, ?_, ?_⟩ <;>
    simp [NamespaceData.insert_table, hl, hfind, DoubleRef.insert, NamespaceData.table_data,
      DoubleRef.lookup_by_name, findKV_insertKV_self, keysN, insertKV_fresh hfind,
      findKV_append_none hfind, findKV]

theorem getOrCreateMany_stable {st : NamespaceData} {n : String} {t : TableData}
    (h : st.table_data n = some t) (ids : List Int) :
    getOrCreateMany st n ids = (ids.map (fun _ => t), st) := by
  induction ids with
  | nil => simp [getOrCreateMany]
  | cons i rest ih => simp [getOrCreateMany, NamespaceData.getOrCreate, h, ih]

theorem progress_eq_spec (st : NamespaceData) : st.progress = progressSpec st := by
  rw [progress_closed_form, progressSpec, foldl_combine_map]
  cases hm : st.buffering_sequence_number <;>
    simp [ShardProgress.new, ShardProgress.actively_buffering, hm]

/-- C10: `buffer_operation` extracts and asserts the presence of the sequence
number before branching on the operation kind, so an operation without one —
a delete included — panics with the `expect` message before any buffer state
is touched: the namespace state is returned exactly as it was and no
diagnostic is emitted. -/
theorem c10_missing_sequence_panics (o : Oracle) (st : NamespaceData) (op : DmlOperation)
    (h : op.sequence = none) :
    st.buffer_operation o op = (.panicked "must have sequence number", st, []) := by
  rw [NamespaceData.buffer_operation, h]

theorem c10_missing_sequence_panics_witness :
    DmlOperation.sequence (.Delete delNoSeq) = none ∧
    nsEx.buffer_operation oracleAllOk (.Delete delNoSeq) =
      (.panicked "must have sequence number", nsEx, []) :=
  ⟨rfl, c10_missing_sequence_panics oracleAllOk nsEx (.Delete delNoSeq) rfl⟩

/-- C7: a delete carrying a sequence number performs no buffer mutation —
the table index and the known-tables counter are unchanged — emits one
diagnostic with the shard, namespace name and id, table name and sequence
number, and returns *applied, no pause requested*. -/
theorem c7_delete_is_inert (o : Oracle) (st : NamespaceData) (d : DmlDelete) (s : Int)
    (h : d.sequence = some s) :
    (st.buffer_operation o (.Delete d)).1 = .applied (.Applied false) ∧
    (st.buffer_operation o (.Delete d)).2.1.tables = st.tables ∧
    (st.buffer_operation o (.Delete d)).2.1.table_count = st.table_count ∧
    (st.buffer_operation o (.Delete d)).2.2 =
      [⟨st.shard_id, st.namespace_name, st.namespace_id, d.table_name, d.sequence,
        "discarding unsupported delete op"⟩] := by
  rw [buffer_operation_delete_eq o st d s h]
  exact ⟨rfl, rfl, rfl, rfl⟩

theorem c7_delete_is_inert_witness :
    delEx.sequence = some 9 ∧
    ((nsEx.buffer_operation oracleAllOk (.Delete delEx)).1 = .applied (.Applied false) ∧
      (nsEx.buffer_operation oracleAllOk (.Delete delEx)).2.1.tables = nsEx.tables ∧
      (nsEx.buffer_operation oracleAllOk (.Delete delEx)).2.1.table_count = nsEx.table_count ∧
      (nsEx.buffer_operation oracleAllOk (.Delete delEx)).2.2 =
        [⟨nsEx.shard_id, nsEx.namespace_name, nsEx.namespace_id, delEx.table_name,
          delEx.sequence, "discarding unsupported delete op"⟩]) :=
  ⟨rfl, c7_delete_is_inert oracleAllOk nsEx delEx 9 rfl⟩

/-- C2: for every `buffer_operation` call on an operation carrying a
sequence number, the in-flight marker is set to that sequence number on
entry, and on return — normal, error, or skipped alike — it is `None`
again; when the marker was `None` before the call (the single-writer
precondition) it is `None` after the call along every path, the
missing-sequence panic path included. -/
theorem c2_marker_lifecycle (o : Oracle) (st : NamespaceData) (op : DmlOperation)
    (h : st.buffering_sequence_number = none) :
    (st.buffer_operation o op).2.1.buffering_sequence_number = none ∧
    ∀ seq, op.sequence = some seq →
      ({ st with buffering_sequence_number := scopedNew seq st.buffering_sequence_number } :
          NamespaceData).buffering_sequence_number = some seq := by
  constructor
  · cases op with
    | Write w =>
      cases hw : w.sequence with
      | none =>
        rw [NamespaceData.buffer_operation]
        simp only [DmlOperation.sequence, hw]
        exact h
      | some seq =>
        rw [buffer_operation_write_eq o st w seq hw]
        cases hp : processTables o seq w.partition_key
            { st with buffering_sequence_number := some seq } false true w.tables with
        | mk st' r =>
          cases r with
          | error e => rfl
          | ok pr =>
            obtain ⟨pw, sk⟩ := pr
            cases sk <;> rfl
    | Delete d =>
      cases hd : d.sequence with
      | none =>
        rw [NamespaceData.buffer_operation]
        simp only [DmlOperation.sequence, hd]
        exact h
      | some s =>
        rw [buffer_operation_delete_eq o st d s hd]
  · intro seq _
    rfl

theorem c2_marker_lifecycle_witness :
    nsEx.buffering_sequence_number = none ∧
    (nsEx.buffer_operation oracleAllOk (.Write wEx)).2.1.buffering_sequence_number = none :=
  ⟨rfl, (c2_marker_lifecycle oracleAllOk nsEx (.Write wEx) rfl).1⟩

/-- C8: `ScopedSequenceNumber::drop` asserts the marker still equals the
sequence number set at entry. Two guards overlapping in time on the same
namespace always trip that assertion (loudly, as a panic), while under the
sequential single-writer discipline no `buffer_operation` call ever returns
that assertion's panic. -/
theorem c8_overlap_assertion :
    (∀ s₁ s₂ : Int,
      overlapRun s₁ s₂ = some "multiple operations are being buffered concurrently") ∧
    ∀ (o : Oracle) (st : NamespaceData) (op : DmlOperation),
      isOverlapPanic (st.buffer_operation o op).1 = false := by
  constructor
  · intro s₁ s₂
    by_cases h : s₂ = s₁
    · subst h
      simp [overlapRun, scopedNew, scopedDrop]
    · simp [overlapRun, scopedNew, scopedDrop, h]
  · intro o st op
    cases op with
    | Write w =>
      cases hw : w.sequence with
      | none =>
        rw [NamespaceData.buffer_operation]
        simp only [DmlOperation.sequence, hw]
        rfl
      | some seq =>
        rw [buffer_operation_write_eq o st w seq hw]
        cases hp : processTables o seq w.partition_key
            { st with buffering_sequence_number := some seq } false true w.tables with
        | mk st' r =>
          cases r with
          | error e => rfl
          | ok pr =>
            obtain ⟨pw, sk⟩ := pr
            cases sk <;> rfl
    | Delete d =>
      cases hd : d.sequence with
      | none =>
        rw [NamespaceData.buffer_operation]
        simp only [DmlOperation.sequence, hd]
        rfl
      | some s =>
        rw [buffer_operation_delete_eq o st d s hd]
        rfl

/-- C3: `progress()` equals the spec's fold of every table's own progress
value under the associative merge with the in-flight marker overlaid onto
the result; whenever the marker holds sequence `s` — in particular at every
intermediate state of an apply call's per-table loop, however many tables
have recorded `s` — the reported progress marks exactly `s` as actively
buffering. -/
theorem c3_progress_overlay (st : NamespaceData) :
    st.progress = progressSpec st ∧
    (∀ s, st.buffering_sequence_number = some s → st.progress.actively = [s]) ∧
    (∀ (s : Int) (o : Oracle) (seq : Int) (pk : String) (pw sk : Bool)
        (l : List (String × Int × Nat)) (st₀ : NamespaceData),
      st₀.buffering_sequence_number = some s →
      ((processTables o seq pk st₀ pw sk l).1).progress.actively = [s]) := by
  refine ⟨progress_eq_spec st, ?_, ?_⟩
  · intro s hs
    rw [progress_closed_form]
    simp [hs, ShardProgress.new, ShardProgress.actively_buffering]
  · intro s o seq pk pw sk l st₀ hs
    have hm := processTables_marker o seq pk l st₀ pw sk
    rw [progress_closed_form]
    simp [hm, hs, ShardProgress.new, ShardProgress.actively_buffering]

theorem c3_progress_overlay_witness :
    stMark.buffering_sequence_number = some 3 ∧ stMark.progress.actively = [3] :=
  ⟨rfl, (c3_progress_overlay stMark).2.1 3 rfl⟩

/-- C1: when a write's per-item delegations all succeed, producing the action
trace `acts`, the overall outcome is *skipped* exactly when every item's
action was skipped, and otherwise *applied* with a pause-request flag equal
to the OR of the pause flags of the items whose action was applied. -/
theorem c1_outcome_aggregation (o : Oracle) (st : NamespaceData) (w : DmlWrite) (seq : Int)
    (acts : List DmlApplyAction) (hseq : w.sequence = some seq)
    (htr : writeActionTrace o seq w.partition_key
      { st with buffering_sequence_number := some seq } w.tables = some acts) :
    (st.buffer_operation o (.Write w)).1 =
      .applied (if acts.all isSkip then .Skipped else .Applied (acts.any requestsPause)) := by
  rw [buffer_operation_write_eq o st w seq hseq]
  have h2 := processTables_trace o seq w.partition_key w.tables
    { st with buffering_sequence_number := some seq } false true acts htr
  cases hp : processTables o seq w.partition_key
      { st with buffering_sequence_number := some seq } false true w.tables with
  | mk st' r =>
    rw [hp] at h2
    simp only [Bool.false_or, Bool.true_and] at h2
    subst h2
    cases hall : acts.all isSkip <;> simp

theorem c1_outcome_aggregation_witness :
    wPair.sequence = some 5 ∧
    writeActionTrace oraclePauseA 5 wPair.partition_key
        { nsEx with buffering_sequence_number := some 5 } wPair.tables =
      some [.Applied true, .Skipped] ∧
    (nsEx.buffer_operation oraclePauseA (.Write wPair)).1 =
      .applied (if ([DmlApplyAction.Applied true, .Skipped]).all isSkip
        then .Skipped else .Applied (([DmlApplyAction.Applied true, .Skipped]).any requestsPause)) :=
  ⟨rfl, by decide,
    c1_outcome_aggregation oraclePauseA nsEx wPair 5 [.Applied true, .Skipped] rfl (by decide)⟩

/-- C5: get-or-create is idempotent per table name — once the name resolves,
every later call (whatever id it supplies) returns the same instance and
leaves the state untouched, and the double-checked `insert_table` does too;
on first creation, exactly one instance is allocated and inserted, the
known-tables counter is bumped by exactly 1, and any number of later calls
for the name all return that one instance without further changes. -/
theorem c5_get_or_create_idempotent (st : NamespaceData) (n : String) :
    (∀ t, st.table_data n = some t → ∀ i : Int,
      st.getOrCreate n i = (t, st) ∧ st.insert_table n i = (t, st)) ∧
    (st.table_data n = none → ∀ (i : Int) (ids : List Int),
      (st.getOrCreate n i).2.table_count = st.table_count + 1 ∧
      (st.getOrCreate n i).2.next_ref = st.next_ref + 1 ∧
      (st.getOrCreate n i).2.table_data n = some (st.getOrCreate n i).1 ∧
      getOrCreateMany (st.getOrCreate n i).2 n ids =
        (ids.map (fun _ => (st.getOrCreate n i).1), (st.getOrCreate n i).2)) := by
  constructor
  · intro t ht i
    have hl : st.tables.lookup_by_name n = some t := ht
    constructor
    · simp [NamespaceData.getOrCreate, ht]
    · simp [NamespaceData.insert_table, hl]
  · intro h i ids
    have hg : st.getOrCreate n i = st.insert_table n i := by
      simp [NamespaceData.getOrCreate, h]
    obtain ⟨h1, h2, h3, h4, h5⟩ := insert_table_fresh (i := i) h
    refine ⟨?_, ?_, ?_, ?_⟩
    · rw [hg]
      exact h2
    · rw [hg]
      exact h3
    · rw [hg]
      exact h4
    · rw [hg]
      exact getOrCreateMany_stable h4 ids

theorem c5_get_or_create_idempotent_witness :
    nsEx.table_data "temp_readings" = none ∧
    ((nsEx.getOrCreate "temp_readings" 44).2.table_count = nsEx.table_count + 1 ∧
      (nsEx.getOrCreate "temp_readings" 44).2.next_ref = nsEx.next_ref + 1 ∧
      (nsEx.getOrCreate "temp_readings" 44).2.table_data "temp_readings" =
        some (nsEx.getOrCreate "temp_readings" 44).1 ∧
      getOrCreateMany (nsEx.getOrCreate "temp_readings" 44).2 "temp_readings" [1, 2, 3] =
        ([1, 2, 3].map (fun _ => (nsEx.getOrCreate "temp_readings" 44).1),
          (nsEx.getOrCreate "temp_readings" 44).2)) :=
  ⟨rfl, (c5_get_or_create_idempotent nsEx "temp_readings").2 rfl 44 [1, 2, 3]⟩

/-- C9: write items are resolved by table name only — when the name is
already indexed the supplied table id is ignored entirely (the loop's result
does not depend on it and no index entry is created for it), and the rows
are buffered into the existing shared instance even if the supplied id
differs from the stored table's id. -/
theorem c9_resolution_by_name_only (o : Oracle) (st : NamespaceData) (n : String)
    (t : TableData) (h : st.table_data n = some t) :
    (∀ i : Int, st.getOrCreate n i = (t, st)) ∧
    (∀ (seq : Int) (pk : String) (pw sk : Bool) (i₁ i₂ : Int) (b : Nat)
        (rest : List (String × Int × Nat)),
      processTables o seq pk st pw sk ((n, i₁, b) :: rest) =
        processTables o seq pk st pw sk ((n, i₂, b) :: rest)) ∧
    (∀ (seq : Int) (pk : String) (b : Nat) (p : Bool) (st₂ : NamespaceData),
      bufferTableWrite o st t seq b pk = .ok (st₂, .Applied p) →
      st₂.table_data n = some { t with buf := t.buf ++ [(seq, b, pk)] } ∧
      keysI st₂ = keysI st ∧
      st₂.table_count = st.table_count) := by
  have hg : ∀ i : Int, st.getOrCreate n i = (t, st) := by
    intro i
    simp [NamespaceData.getOrCreate, h]
  refine ⟨hg, ?_, ?_⟩
  · intro seq pk pw sk i₁ i₂ b rest
    simp only [processTables, hg]
  · intro seq pk b p st₂ hb
    rw [bufferTableWrite] at hb
    cases ho : o t seq b pk with
    | error e =>
      rw [ho] at hb
      simp at hb
    | ok act =>
      rw [ho] at hb
      cases act with
      | Skipped => simp at hb
      | Applied p₀ =>
        simp at hb
        obtain ⟨hst, hp⟩ := hb
        rw [← hst]
        refine ⟨?_, ?_, rfl⟩
        · show findKV n ((st.updateTable t.ref _).tables.by_name) = _
          rw [NamespaceData.updateTable]
          rw [findKV_mapVal (fun v => if v.ref = t.ref then
            { t with buf := t.buf ++ [(seq, b, pk)] } else v) n st.tables.by_name]
          have hfn : findKV n st.tables.by_name = some t := h
          rw [hfn]
          simp
        · show keysI (st.updateTable t.ref _) = keysI st
          rw [NamespaceData.updateTable]
          show (st.tables.by_id.map _).map Prod.fst = _
          rw [keys_mapVal (fun v => if v.ref = t.ref then
            { t with buf := t.buf ++ [(seq, b, pk)] } else v) st.tables.by_id]
          rfl

theorem c9_resolution_by_name_only_witness :
    stEx.table_data "temp_readings" = some tblEx ∧
    processTables oracleAllOk 6 "q" stEx false true [("temp_readings", 999, 8)] =
      processTables oracleAllOk 6 "q" stEx false true [("temp_readings", 44, 8)] :=
  ⟨by decide,
    (c9_resolution_by_name_only oracleAllOk stEx "temp_readings" tblEx (by decide)).2.1
      6 "q" false true 999 44 8 []⟩

/-- C6: if some item's delegation fails, `buffer_operation` returns that
error verbatim; the items after it are never processed (the result does not
mention them), the tables already processed stay exactly as the prefix left
them — including the failing item's get-or-create, with no rollback — and
the in-flight marker is still released to `None`. -/
theorem c6_error_stops_loop (o : Oracle) (st : NamespaceData) (w : DmlWrite) (seq : Int)
    (pre rest : List (String × Int × Nat)) (n : String) (i : Int) (b : Nat)
    (e : IngestError) (st₁ : NamespaceData) (pw sk : Bool)
    (hseq : w.sequence = some seq)
    (hitems : w.tables = pre ++ (n, i, b) :: rest)
    (hpre : processTables o seq w.partition_key
      { st with buffering_sequence_number := some seq } false true pre = (st₁, .ok (pw, sk)))
    (herr : o (st₁.getOrCreate n i).1 seq b w.partition_key = .error e) :
    st.buffer_operation o (.Write w) =
      (.failed e, { (st₁.getOrCreate n i).2 with buffering_sequence_number := none }, []) := by
  have hbw : bufferTableWrite o (st₁.getOrCreate n i).2 (st₁.getOrCreate n i).1 seq b
      w.partition_key = .error e := by
    rw [bufferTableWrite, herr]
  rw [buffer_operation_write_eq o st w seq hseq, hitems]
  rw [processTables_append o seq w.partition_key pre ((n, i, b) :: rest) _ st₁
    false true pw sk hpre]
  rw [processTables_cons_err hbw]

theorem c6_error_stops_loop_witness :
    wPair.sequence = some 5 ∧
    wPair.tables = [("a", 1, 0)] ++ ("b", 2, 0) :: [] ∧
    processTables oracleFailB 5 wPair.partition_key
        { nsEx with buffering_sequence_number := some 5 } false true [("a", 1, 0)] =
      (stAfterA, .ok (false, false)) ∧
    oracleFailB (stAfterA.getOrCreate "b" 2).1 5 0 wPair.partition_key = .error 7 ∧
    nsEx.buffer_operation oracleFailB (.Write wPair) =
      (.failed 7, { (stAfterA.getOrCreate "b" 2).2 with buffering_sequence_number := none },
        []) :=
  ⟨rfl, rfl, rfl, rfl,
    c6_error_stops_loop oracleFailB nsEx wPair 5 [("a", 1, 0)] [] "b" 2 0 7 stAfterA
      false false rfl rfl rfl rfl⟩

theorem findKV_some_mem_keys {κ α : Type} [DecidableEq κ] {k : κ} {l : List (κ × α)} {v : α}
    (h : findKV k l = some v) : k ∈ l.map Prod.fst := by
  by_contra hk
  rw [findKV_eq_none.mpr hk] at h
  cases h

theorem WF_new (a : Int) (b : String) (c : Int) (d : Nat) :
    WF (NamespaceData.new a b c d) := by
  constructor <;> simp [keysN, keysI, valsAll, NamespaceData.new]

theorem WF_marker {st : NamespaceData} (x : Option Int) (h : WF st) :
    WF { st with buffering_sequence_number := x } :=
  ⟨h.nodupN, h.nodupI, h.nameOk, h.idOk, h.refInj⟩

theorem WF_lookup_by_name {st : NamespaceData} (h : WF st) {n : String} {t : TableData}
    (hl : st.table_data n = some t) :
    t.table_name = n ∧ st.table_id t.table_id = some t :=
  ⟨(h.nameOk (n, t) (findKV_mem hl)).1, (h.nameOk (n, t) (findKV_mem hl)).2.1⟩

theorem WF_lookup_by_id {st : NamespaceData} (h : WF st) {i : Int} {t : TableData}
    (hl : st.table_id i = some t) :
    t.table_id = i ∧ st.table_data t.table_name = some t :=
  ⟨(h.idOk (i, t) (findKV_mem hl)).1, (h.idOk (i, t) (findKV_mem hl)).2.1⟩

theorem mem_valsAll_name {st : NamespaceData} {n : String} {t : TableData}
    (h : st.table_data n = some t) : t ∈ valsAll st := by
  unfold valsAll
  exact List.mem_append_left _ (List.mem_map_of_mem Prod.snd (findKV_mem h))

theorem valsAll_updateTable (st : NamespaceData) (r : Nat) (t' : TableData) :
    valsAll (st.updateTable r t') =
      (valsAll st).map (fun v => if v.ref = r then t' else v) := by
  simp [valsAll, NamespaceData.updateTable, List.map_map, Function.comp_def]

theorem WF_updateTable {st : NamespaceData} {t t' : TableData} (h : WF st)
    (ht : t ∈ valsAll st)
    (hname : t'.table_name = t.table_name) (hid : t'.table_id = t.table_id)
    (href : t'.ref = t.ref) :
    WF (st.updateTable t.ref t') := by
  have hgv : ∀ v ∈ valsAll st,
      ((if v.ref = t.ref then t' else v).table_name = v.table_name ∧
        (if v.ref = t.ref then t' else v).table_id = v.table_id ∧
        (if v.ref = t.ref then t' else v).ref = v.ref) := by
    intro v hv
    by_cases hr : v.ref = t.ref
    · have hv_eq : v = t := h.refInj v hv t ht hr
      subst hv_eq
      simp [hr, hname, hid, href]
    · simp [hr]
  have hkn : keysN (st.updateTable t.ref t') = keysN st := by
    show (st.tables.by_name.map
      (fun p => (p.1, if p.2.ref = t.ref then t' else p.2))).map Prod.fst = _
    exact keys_mapVal (fun v => if v.ref = t.ref then t' else v) st.tables.by_name
  have hki : keysI (st.updateTable t.ref t') = keysI st := by
    show (st.tables.by_id.map
      (fun p => (p.1, if p.2.ref = t.ref then t' else p.2))).map Prod.fst = _
    exact keys_mapVal (fun v => if v.ref = t.ref then t' else v) st.tables.by_id
  have hfn : ∀ k, findKV k ((st.updateTable t.ref t').tables.by_name) =
      (findKV k st.tables.by_name).map (fun v => if v.ref = t.ref then t' else v) := by
    intro k
    exact findKV_mapVal (fun v => if v.ref = t.ref then t' else v) k st.tables.by_name
  have hfi : ∀ k, findKV k ((st.updateTable t.ref t').tables.by_id) =
      (findKV k st.tables.by_id).map (fun v => if v.ref = t.ref then t' else v) := by
    intro k
    exact findKV_mapVal (fun v => if v.ref = t.ref then t' else v) k st.tables.by_id
  constructor
  · rw [hkn]
    exact h.nodupN
  · rw [hki]
    exact h.nodupI
  · intro q hq
    rw [show (st.updateTable t.ref t').tables.by_name =
      st.tables.by_name.map (fun p => (p.1, if p.2.ref = t.ref then t' else p.2)) from rfl] at hq
    obtain ⟨p, hp, hq_eq⟩ := List.mem_map.mp hq
    subst hq_eq
    obtain ⟨e1, e2, e3⟩ := h.nameOk p hp
    have hpv : p.2 ∈ valsAll st :=
      List.mem_append_left _ (List.mem_map_of_mem Prod.snd hp)
    obtain ⟨f1, f2, f3⟩ := hgv p.2 hpv
    refine ⟨by rw [f1, e1], ?_, ?_⟩
    · show findKV (if p.2.ref = t.ref then t' else p.2).table_id
        ((st.updateTable t.ref t').tables.by_id) = _
      rw [f2, hfi, e2]
      rfl
    · show (if p.2.ref = t.ref then t' else p.2).ref < (st.updateTable t.ref t').next_ref
      rw [f3]
      exact e3
  · intro q hq
    rw [show (st.updateTable t.ref t').tables.by_id =
      st.tables.by_id.map (fun p => (p.1, if p.2.ref = t.ref then t' else p.2)) from rfl] at hq
    obtain ⟨p, hp, hq_eq⟩ := List.mem_map.mp hq
    subst hq_eq
    obtain ⟨e1, e2, e3⟩ := h.idOk p hp
    have hpv : p.2 ∈ valsAll st :=
      List.mem_append_right _ (List.mem_map_of_mem Prod.snd hp)
    obtain ⟨f1, f2, f3⟩ := hgv p.2 hpv
    refine ⟨by rw [f2, e1], ?_, ?_⟩
    · show findKV (if p.2.ref = t.ref then t' else p.2).table_name
        ((st.updateTable t.ref t').tables.by_name) = _
      rw [f1, hfn, e2]
      rfl
    · show (if p.2.ref = t.ref then t' else p.2).ref < (st.updateTable t.ref t').next_ref
      rw [f3]
      exact e3
  · intro u₁ hu₁ u₂ hu₂ hr
    rw [valsAll_updateTable] at hu₁ hu₂
    obtain ⟨v₁, hv₁, hu₁_eq⟩ := List.mem_map.mp hu₁
    obtain ⟨v₂, hv₂, hu₂_eq⟩ := List.mem_map.mp hu₂
    subst hu₁_eq
    subst hu₂_eq
    obtain ⟨_, _, g1⟩ := hgv v₁ hv₁
    obtain ⟨_, _, g2⟩ := hgv v₂ hv₂
    rw [g1, g2] at hr
    rw [h.refInj v₁ hv₁ v₂ hv₂ hr]

theorem ref_bound {st : NamespaceData} (h : WF st) : ∀ u ∈ valsAll st, u.ref < st.next_ref := by
  intro u hu
  rcases List.mem_append.mp hu with h₁ | h₂
  · obtain ⟨p, hp, hu_eq⟩ := List.mem_map.mp h₁
    subst hu_eq
    exact (h.nameOk p hp).2.2
  · obtain ⟨p, hp, hu_eq⟩ := List.mem_map.mp h₂
    subst hu_eq
    exact (h.idOk p hp).2.2

theorem keysN_updateTable (st : NamespaceData) (r : Nat) (t' : TableData) :
    keysN (st.updateTable r t') = keysN st := by
  show (st.tables.by_name.map
    (fun p => (p.1, if p.2.ref = r then t' else p.2))).map Prod.fst = _
  exact keys_mapVal (fun v => if v.ref = r then t' else v) st.tables.by_name

theorem keysI_updateTable (st : NamespaceData) (r : Nat) (t' : TableData) :
    keysI (st.updateTable r t') = keysI st := by
  show (st.tables.by_id.map
    (fun p => (p.1, if p.2.ref = r then t' else p.2))).map Prod.fst = _
  exact keys_mapVal (fun v => if v.ref = r then t' else v) st.tables.by_id

theorem keysN_inserted (st : NamespaceData) (n : String) (i : Int) :
    keysN (insertedState st n i) = keysN st ++ [n] := by
  simp [keysN, insertedState]

theorem keysI_inserted (st : NamespaceData) (n : String) (i : Int) :
    keysI (insertedState st n i) = keysI st ++ [i] := by
  simp [keysI, insertedState]

theorem mem_valsAll_inserted {st : NamespaceData} {n : String} {i : Int} {u : TableData} :
    u ∈ valsAll (insertedState st n i) ↔ u ∈ valsAll st ∨ u = freshTable st n i := by
  simp only [valsAll, insertedState, List.map_append, List.mem_append, List.map_cons,
    List.map_nil, List.mem_singleton]
  tauto

theorem insert_table_eq_inserted {st : NamespaceData} {n : String} {i : Int}
    (hn : findKV n st.tables.by_name = none) (hi : findKV i st.tables.by_id = none) :
    st.insert_table n i = (freshTable st n i, insertedState st n i) := by
  have hl : st.tables.lookup_by_name n = none := hn
  simp [NamespaceData.insert_table, hl, DoubleRef.insert, insertedState, freshTable,
    insertKV_fresh hn, insertKV_fresh hi]

theorem WF_inserted {st : NamespaceData} {n : String} {i : Int} (h : WF st)
    (hn : findKV n st.tables.by_name = none) (hi : findKV i st.tables.by_id = none) :
    WF (insertedState st n i) := by
  have hnn : n ∉ keysN st := findKV_eq_none.mp hn
  have hii : i ∉ keysI st := findKV_eq_none.mp hi
  constructor
  · rw [keysN_inserted]
    refine List.Nodup.append h.nodupN (List.nodup_singleton n) ?_
    intro a ha hb
    rw [List.mem_singleton] at hb
    subst hb
    exact hnn ha
  · rw [keysI_inserted]
    refine List.Nodup.append h.nodupI (List.nodup_singleton i) ?_
    intro a ha hb
    rw [List.mem_singleton] at hb
    subst hb
    exact hii ha
  · intro q hq
    have hq' : q ∈ st.tables.by_name ++ [(n, freshTable st n i)] := hq
    rcases List.mem_append.mp hq' with hold | hnew
    · obtain ⟨e1, e2, e3⟩ := h.nameOk q hold
      refine ⟨e1, ?_, ?_⟩
      · show findKV q.2.table_id (st.tables.by_id ++ [(i, freshTable st n i)]) = some q.2
        exact findKV_append_some e2
      · show q.2.ref < st.next_ref + 1
        exact Nat.lt_succ_of_lt e3
    · rw [List.mem_singleton] at hnew
      subst hnew
      refine ⟨rfl, ?_, ?_⟩
      · show findKV (freshTable st n i).table_id
          (st.tables.by_id ++ [(i, freshTable st n i)]) = _
        rw [show (freshTable st n i).table_id = i from rfl, findKV_append_none hi]
        simp [findKV]
      · exact Nat.lt_succ_self _
  · intro q hq
    have hq' : q ∈ st.tables.by_id ++ [(i, freshTable st n i)] := hq
    rcases List.mem_append.mp hq' with hold | hnew
    · obtain ⟨e1, e2, e3⟩ := h.idOk q hold
      refine ⟨e1, ?_, ?_⟩
      · show findKV q.2.table_name (st.tables.by_name ++ [(n, freshTable st n i)]) = some q.2
        exact findKV_append_some e2
      · show q.2.ref < st.next_ref + 1
        exact Nat.lt_succ_of_lt e3
    · rw [List.mem_singleton] at hnew
      subst hnew
      refine ⟨rfl, ?_, ?_⟩
      · show findKV (freshTable st n i).table_name
          (st.tables.by_name ++ [(n, freshTable st n i)]) = _
        rw [show (freshTable st n i).table_name = n from rfl, findKV_append_none hn]
        simp [findKV]
      · exact Nat.lt_succ_self _
  · intro u₁ hu₁ u₂ hu₂ hr
    rw [mem_valsAll_inserted] at hu₁ hu₂
    rcases hu₁ with h₁ | h₁ <;> rcases hu₂ with h₂ | h₂
    · exact h.refInj u₁ h₁ u₂ h₂ hr
    · subst h₂
      exfalso
      have hb := ref_bound h u₁ h₁
      rw [hr] at hb
      exact Nat.lt_irrefl _ hb
    · subst h₁
      exfalso
      have hb := ref_bound h u₂ h₂
      rw [← hr] at hb
      exact Nat.lt_irrefl _ hb
    · rw [h₁, h₂]

theorem bufferTableWrite_WF {o : Oracle} {st : NamespaceData} {t : TableData} {seq : Int}
    {b : Nat} {pk : String} {st₂ : NamespaceData} {a : DmlApplyAction}
    (hwf : WF st) (hmem : t ∈ valsAll st)
    (hb : bufferTableWrite o st t seq b pk = .ok (st₂, a)) :
    WF st₂ ∧ keysN st₂ = keysN st ∧ keysI st₂ = keysI st := by
  rw [bufferTableWrite] at hb
  cases ho : o t seq b pk with
  | error e =>
    rw [ho] at hb
    simp at hb
  | ok act =>
    rw [ho] at hb
    cases act with
    | Applied p =>
      simp at hb
      obtain ⟨hst, _⟩ := hb
      rw [← hst]
      exact ⟨WF_updateTable hwf hmem rfl rfl rfl, keysN_updateTable st t.ref _,
        keysI_updateTable st t.ref _⟩
    | Skipped =>
      simp at hb
      obtain ⟨hst, _⟩ := hb
      rw [← hst]
      exact ⟨hwf, rfl, rfl⟩

theorem WF_processTables (o : Oracle) (seq : Int) (pk : String) :
    ∀ (l : List (String × Int × Nat)) (st : NamespaceData) (pw sk : Bool), WF st →
      OkWrite (keysN st) (keysI st) l = true →
      WF (processTables o seq pk st pw sk l).1 := by
  intro l
  induction l with
  | nil =>
    intro st pw sk hwf _
    exact hwf
  | cons item rest ih =>
    intro st pw sk hwf hok
    obtain ⟨n, i, b⟩ := item
    cases hn : st.table_data n with
    | some t =>
      have hmemk : n ∈ keysN st := findKV_some_mem_keys hn
      have hok₂ : OkWrite (keysN st) (keysI st) rest = true := by
        rw [OkWrite, if_pos hmemk] at hok
        exact hok
      have hg : st.getOrCreate n i = (t, st) := by
        simp [NamespaceData.getOrCreate, hn]
      have hmem : t ∈ valsAll st := mem_valsAll_name hn
      cases hb : bufferTableWrite o (st.getOrCreate n i).2 (st.getOrCreate n i).1 seq b pk with
      | error e =>
        rw [processTables_cons_err hb]
        show WF (st.getOrCreate n i).2
        rw [hg]
        exact hwf
      | ok r =>
        obtain ⟨st₂, action⟩ := r
        have hb₂ : bufferTableWrite o st t seq b pk = .ok (st₂, action) := by
          rw [hg] at hb
          exact hb
        obtain ⟨hwf₂, hkn₂, hki₂⟩ := bufferTableWrite_WF hwf hmem hb₂
        have hok₃ : OkWrite (keysN st₂) (keysI st₂) rest = true := by
          rw [hkn₂, hki₂]
          exact hok₂
        cases action with
        | Applied p =>
          rw [processTables_cons_applied hb]
          exact ih st₂ (pw || p) false hwf₂ hok₃
        | Skipped =>
          rw [processTables_cons_skipped hb]
          exact ih st₂ pw sk hwf₂ hok₃
    | none =>
      have hfn : findKV n st.tables.by_name = none := hn
      have hnk : n ∉ keysN st := findKV_eq_none.mp hfn
      rw [OkWrite, if_neg hnk, Bool.and_eq_true] at hok
      obtain ⟨hid, hok₂⟩ := hok
      have hif : i ∉ keysI st := of_decide_eq_true hid
      have hfi : findKV i st.tables.by_id = none := findKV_eq_none.mpr hif
      have hg : st.getOrCreate n i = (freshTable st n i, insertedState st n i) := by
        rw [NamespaceData.getOrCreate]
        rw [hn]
        exact insert_table_eq_inserted hfn hfi
      have hwf₁ : WF (insertedState st n i) := WF_inserted hwf hfn hfi
      have hmem : freshTable st n i ∈ valsAll (insertedState st n i) := by
        rw [mem_valsAll_inserted]
        right
        rfl
      cases hb : bufferTableWrite o (st.getOrCreate n i).2 (st.getOrCreate n i).1 seq b pk with
      | error e =>
        rw [processTables_cons_err hb]
        show WF (st.getOrCreate n i).2
        rw [hg]
        exact hwf₁
      | ok r =>
        obtain ⟨st₂, action⟩ := r
        have hb₂ : bufferTableWrite o (insertedState st n i) (freshTable st n i) seq b pk =
            .ok (st₂, action) := by
          rw [hg] at hb
          exact hb
        obtain ⟨hwf₂, hkn₂, hki₂⟩ := bufferTableWrite_WF hwf₁ hmem hb₂
        have hok₃ : OkWrite (keysN st₂) (keysI st₂) rest = true := by
          rw [hkn₂, hki₂, keysN_inserted, keysI_inserted]
          exact hok₂
        cases action with
        | Applied p =>
          rw [processTables_cons_applied hb]
          exact ih st₂ (pw || p) false hwf₂ hok₃
        | Skipped =>
          rw [processTables_cons_skipped hb]
          exact ih st₂ pw sk hwf₂ hok₃

theorem WF_buffer_operation {o : Oracle} {st : NamespaceData} {op : DmlOperation}
    (hwf : WF st) (hok : OkOpB st op = true) :
    WF (st.buffer_operation o op).2.1 := by
  cases op with
  | Write w =>
    cases hw : w.sequence with
    | none =>
      rw [NamespaceData.buffer_operation]
      simp only [DmlOperation.sequence, hw]
      exact hwf
    | some seq =>
      rw [buffer_operation_write_eq o st w seq hw]
      have hwf₁ : WF { st with buffering_sequence_number := some seq } :=
        WF_marker (some seq) hwf
      have hok₁ : OkWrite (keysN { st with buffering_sequence_number := some seq })
          (keysI { st with buffering_sequence_number := some seq }) w.tables = true := hok
      have hloop := WF_processTables o seq w.partition_key w.tables
        { st with buffering_sequence_number := some seq } false true hwf₁ hok₁
      cases hp : processTables o seq w.partition_key
          { st with buffering_sequence_number := some seq } false true w.tables with
      | mk st' r =>
        rw [hp] at hloop
        cases r with
        | error e => exact WF_marker none hloop
        | ok pr =>
          obtain ⟨pw, sk⟩ := pr
          cases sk <;> exact WF_marker none hloop
  | Delete d =>
    cases hd : d.sequence with
    | none =>
      rw [NamespaceData.buffer_operation]
      simp only [DmlOperation.sequence, hd]
      exact hwf
    | some sd =>
      rw [buffer_operation_delete_eq o st d sd hd]
      exact WF_marker none hwf

/-- C4 (counterexample): the dual-view invariant fails as stated. One write
whose two items name different tables but carry the same table id (`wDup`)
leaves table `a` reachable by name while the `by_id` entry for its id has
been replaced by table `b`: lookup by name and lookup by id succeed but do
not return the identical shared instance. -/
theorem c4_dual_view_counterexample :
    stDup.table_data "a" = some tblA ∧
    tblA.table_id = 5 ∧
    stDup.table_id 5 = some tblB ∧
    tblA ≠ tblB := by
  decide

/-- C4 (amended): provided no two distinct table names are created with the
same table id — the `OkOpB` side condition on each applied operation, which
the catalog's id uniqueness guarantees — the dual-keyed index is well formed
at every reachable state: a fresh namespace is well formed, well-formedness
is preserved by every `buffer_operation`, and in a well-formed state a table
found by name is found by its id as the identical shared instance and vice
versa, so no entry exists in one keyed view without the other. -/
theorem c4_dual_view_invariant :
    (∀ (a : Int) (b : String) (c : Int) (d : Nat), WF (NamespaceData.new a b c d)) ∧
    (∀ st : NamespaceData, WF st → ∀ (n : String) (t : TableData),
      st.table_data n = some t → st.table_id t.table_id = some t) ∧
    (∀ st : NamespaceData, WF st → ∀ (i : Int) (t : TableData),
      st.table_id i = some t → st.table_data t.table_name = some t) ∧
    (∀ (o : Oracle) (st : NamespaceData) (op : DmlOperation),
      WF st → OkOpB st op = true → WF (st.buffer_operation o op).2.1) := by
  refine ⟨WF_new, ?_, ?_, ?_⟩
  · intro st hwf n t hl
    exact (WF_lookup_by_name hwf hl).2
  · intro st hwf i t hl
    exact (WF_lookup_by_id hwf hl).2
  · intro o st op hwf hok
    exact WF_buffer_operation hwf hok

theorem c4_dual_view_invariant_witness :
    OkOpB nsEx (DmlOperation.Write wEx) = true ∧
    WF (nsEx.buffer_operation oracleAllOk (.Write wEx)).2.1 :=
  ⟨by decide,
    c4_dual_view_invariant.2.2.2 oracleAllOk nsEx (.Write wEx)
      ⟨by decide, by decide, by decide, by decide, by decide⟩ (by decide)⟩

end InfluxIngester
